import Mathlib

/-!
Verification of the unified context-item store of the obsidian-file-organizer
repository (the Zustand store `useContextItems` and its factory helpers).

The store keeps one insertion-ordered, string-keyed collection per item
category (files, folders, youtubeVideos, tags, screenpipe, searchResults),
an optional current-file slot with an inclusion flag, and derives a unified,
`createdAt`-descending, stably sorted view.  JavaScript object literals with
string keys preserve insertion order, `{ ...m, [k]: v }` overwrites an
existing key in place (keeping its position) and appends a fresh key at the
end, and `Array.prototype.sort` is a stable sort; the embedding below models
those semantics with association lists and a stable insertion sort.
-/

namespace ContextStore

/-- The closed set of item categories (`ContextItemType` in the source). -/
inductive ContextItemType
  | file
  | folder
  | youtube
  | tag
  | screenpipe
  | search
deriving DecidableEq

/-- One entry of a search-result bundle (`{ path; title; content }`). -/
structure SearchResultEntry where
  path : String
  title : String
  content : String
deriving DecidableEq

/-- The variant-specific fields of a context item.  The source expresses these
as separate interfaces extending `BaseContextItem`; here they are the payload
of a single item type.  The screenpipe payload is `any` in the source and is
modelled as an uninterpreted string. -/
inductive ContextPayload
  | file (path title content : String)
  | folder (path name : String)
  | youtube (videoId title transcript : String)
  | tag (name : String)
  | screenpipe (data : String)
  | search (query : String) (results : List SearchResultEntry)
deriving DecidableEq

/-- A context item: the `BaseContextItem` fields (`id`, `reference`,
`createdAt`) plus the variant payload.  `createdAt` is a wall-clock
millisecond count, modelled as `Nat`. -/
structure ContextItem where
  id : String
  reference : String
  createdAt : Nat
  payload : ContextPayload
deriving DecidableEq

/-- The category an item belongs to, determined by its payload variant
(the `type` literal field in the source). -/
def ContextItem.type (it : ContextItem) : ContextItemType :=
  match it.payload with
  | .file .. => .file
  | .folder .. => .folder
  | .youtube .. => .youtube
  | .tag .. => .tag
  | .screenpipe .. => .screenpipe
  | .search .. => .search

/-- A JavaScript object used as a string-keyed map (`Record<string, T>`):
an association list in property-insertion order. -/
abbrev Record := List (String × ContextItem)

/-- `{ ...r, [k]: v }`: overwrite an existing key in place (keeping its
position), or append a fresh key at the end. -/
def Record.set : Record → String → ContextItem → Record
  | [], k, v => [(k, v)]
  | p :: ps, k, v => if p.1 = k then (k, v) :: ps else p :: Record.set ps k v

/-- `Object.values(r)` in property-insertion order. -/
def Record.values (r : Record) : List ContextItem :=
  r.map Prod.snd

/-- `Object.keys(r)` in property-insertion order. -/
def Record.keys (r : Record) : List String :=
  r.map Prod.fst

/-- `delete r[k]`: drop the property named `k`, keeping the others in
order. -/
def Record.delete (r : Record) (k : String) : Record :=
  r.filter (fun p => !(p.1 == k))

/-- Property lookup `r[k]`. -/
def Record.get? : Record → String → Option ContextItem
  | [], _ => none
  | p :: ps, k => if p.1 = k then some p.2 else Record.get? ps k

/-- The state of the `useContextItems` store: one collection per category,
the current-file slot and its inclusion flag. -/
structure ContextItemsState where
  files : Record
  folders : Record
  youtubeVideos : Record
  tags : Record
  screenpipe : Record
  searchResults : Record
  currentFile : Option ContextItem
  includeCurrentFile : Bool
deriving DecidableEq

/-- The store's initial state: empty collections, no current file, inclusion
flag `true`. -/
def initialState : ContextItemsState :=
  { files := []
    folders := []
    youtubeVideos := []
    tags := []
    screenpipe := []
    searchResults := []
    currentFile := none
    includeCurrentFile := true }

/-- `addFile`: `files: { ...state.files, [file.id]: file }`. -/
def addFile (file : ContextItem) (s : ContextItemsState) : ContextItemsState :=
  { s with files := Record.set s.files file.id file }

/-- `addFolder`: `folders: { ...state.folders, [folder.id]: folder }`. -/
def addFolder (folder : ContextItem) (s : ContextItemsState) : ContextItemsState :=
  { s with folders := Record.set s.folders folder.id folder }

/-- `addYouTubeVideo`: `youtubeVideos: { ...state.youtubeVideos, [video.id]: video }`. -/
def addYouTubeVideo (video : ContextItem) (s : ContextItemsState) : ContextItemsState :=
  { s with youtubeVideos := Record.set s.youtubeVideos video.id video }

/-- `addTag`: `tags: { ...state.tags, [tag.id]: tag }`. -/
def addTag (tag : ContextItem) (s : ContextItemsState) : ContextItemsState :=
  { s with tags := Record.set s.tags tag.id tag }

/-- `addScreenpipe`: `screenpipe: { ...state.screenpipe, [data.id]: data }`. -/
def addScreenpipe (data : ContextItem) (s : ContextItemsState) : ContextItemsState :=
  { s with screenpipe := Record.set s.screenpipe data.id data }

/-- `addSearchResults`: `searchResults: { ...state.searchResults, [search.id]: search }`. -/
def addSearchResults (search : ContextItem) (s : ContextItemsState) : ContextItemsState :=
  { s with searchResults := Record.set s.searchResults search.id search }

/-- The `collectionMap` dispatch of `removeItem`/`getItemsByType`: the
collection a category name designates. -/
def getCollection (s : ContextItemsState) : ContextItemType → Record
  | .file => s.files
  | .folder => s.folders
  | .youtube => s.youtubeVideos
  | .tag => s.tags
  | .screenpipe => s.screenpipe
  | .search => s.searchResults

/-- Replace the collection a category name designates, leaving every other
state field unchanged. -/
def setCollection (s : ContextItemsState) : ContextItemType → Record → ContextItemsState
  | .file, r => { s with files := r }
  | .folder, r => { s with folders := r }
  | .youtube, r => { s with youtubeVideos := r }
  | .tag, r => { s with tags := r }
  | .screenpipe, r => { s with screenpipe := r }
  | .search, r => { s with searchResults := r }

/-- `removeItem(type, id)`: copy the designated collection, `delete` the
property named `id`, store the copy back. -/
def removeItem (type : ContextItemType) (id : String) (s : ContextItemsState) :
    ContextItemsState :=
  setCollection s type (Record.delete (getCollection s type) id)

/-- `setCurrentFile(file)`: replace the current-file slot. -/
def setCurrentFile (file : Option ContextItem) (s : ContextItemsState) :
    ContextItemsState :=
  { s with currentFile := file }

/-- `toggleCurrentFile()`: flip the inclusion flag. -/
def toggleCurrentFile (s : ContextItemsState) : ContextItemsState :=
  { s with includeCurrentFile := !s.includeCurrentFile }

/-- `clearAll()`: empty every collection, clear the current-file slot, and
set the inclusion flag to `false` (the literal written in the source). -/
def clearAll (_s : ContextItemsState) : ContextItemsState :=
  { files := []
    folders := []
    youtubeVideos := []
    tags := []
    screenpipe := []
    searchResults := []
    includeCurrentFile := false
    currentFile := none }

/-- The flat concatenation `[...Object.values(state.files), ...,
...Object.values(state.searchResults)]` built by `getUnifiedContext`. -/
def allCategoryItems (s : ContextItemsState) : List ContextItem :=
  Record.values s.files ++ Record.values s.folders ++
    Record.values s.youtubeVideos ++ Record.values s.tags ++
    Record.values s.screenpipe ++ Record.values s.searchResults

/-- Stable insertion of `x` into a `createdAt`-descending list: `x` goes in
front of the first element whose `createdAt` is `≤ x.createdAt`, so an
earlier-listed element is kept in front of later ties. -/
def insertDesc (x : ContextItem) : List ContextItem → List ContextItem
  | [] => [x]
  | y :: ys =>
    if y.createdAt ≤ x.createdAt then x :: y :: ys else y :: insertDesc x ys

/-- The stable sort `.sort((a, b) => b.createdAt - a.createdAt)`
(`Array.prototype.sort` is stable, and this comparator orders by `createdAt`
descending), modelled as a stable insertion sort. -/
def sortByCreatedAtDesc : List ContextItem → List ContextItem
  | [] => []
  | x :: xs => insertDesc x (sortByCreatedAtDesc xs)

/-- `getUnifiedContext()`: sort the flat concatenation of all collections by
`createdAt` descending, then, when `state.includeCurrentFile &&
state.currentFile` holds, `unshift` the current file in front. -/
def getUnifiedContext (s : ContextItemsState) : List ContextItem :=
  let allItems := sortByCreatedAtDesc (allCategoryItems s)
  match s.includeCurrentFile, s.currentFile with
  | true, some f => f :: allItems
  | _, _ => allItems

/-- `getItemsByType(type)`: the raw values of the designated collection. -/
def getItemsByType (type : ContextItemType) (s : ContextItemsState) :
    List ContextItem :=
  Record.values (getCollection s type)

/-- The item built by the `addFileContext` helper: id is the path,
reference label `"File"`, `createdAt` the current time. -/
def mkFileContextItem (path title content : String) (now : Nat) : ContextItem :=
  { id := path
    reference := "File"
    createdAt := now
    payload := .file path title content }

/-- `addFileContext` helper: build the item and `addFile` it. -/
def addFileContext (path title content : String) (now : Nat)
    (s : ContextItemsState) : ContextItemsState :=
  addFile (mkFileContextItem path title content now) s

/-- The item built by the `addYouTubeContext` helper: id is
`youtube-` + video id, reference label `"YouTube Video"`. -/
def mkYouTubeContextItem (videoId title transcript : String) (now : Nat) :
    ContextItem :=
  { id := "youtube-" ++ videoId
    reference := "YouTube Video"
    createdAt := now
    payload := .youtube videoId title transcript }

/-- `addYouTubeContext` helper: build the item and `addYouTubeVideo` it. -/
def addYouTubeContext (videoId title transcript : String) (now : Nat)
    (s : ContextItemsState) : ContextItemsState :=
  addYouTubeVideo (mkYouTubeContextItem videoId title transcript now) s

/-- The folder name computed by `addFolderContext`:
`folderPath.split('/').pop() || folderPath` (the last segment, or the whole
path when that segment is the empty string). -/
def folderNameOfPath (folderPath : String) : String :=
  match (folderPath.splitOn "/").getLast? with
  | some seg => if seg = "" then folderPath else seg
  | none => folderPath

/-- The item built by the `addFolderContext` helper: id is the folder path,
reference label `"Folder"`. -/
def mkFolderContextItem (folderPath : String) (now : Nat) : ContextItem :=
  { id := folderPath
    reference := "Folder"
    createdAt := now
    payload := .folder folderPath (folderNameOfPath folderPath) }

/-- `addFolderContext` helper: build the item and `addFolder` it. -/
def addFolderContext (folderPath : String) (now : Nat)
    (s : ContextItemsState) : ContextItemsState :=
  addFolder (mkFolderContextItem folderPath now) s

/-- The item built by the `addTagContext` helper: id is `tag-` + tag name,
reference label `"Tag"`. -/
def mkTagContextItem (tagName : String) (now : Nat) : ContextItem :=
  { id := "tag-" ++ tagName
    reference := "Tag"
    createdAt := now
    payload := .tag tagName }

/-- `addTagContext` helper: build the item and `addTag` it. -/
def addTagContext (tagName : String) (now : Nat) (s : ContextItemsState) :
    ContextItemsState :=
  addTag (mkTagContextItem tagName now) s

/-- The item built by the `addScreenpipeContext` helper: the fixed id
`screenpipe-context`, reference label `"Screenpipe Context"`. -/
def mkScreenpipeContextItem (data : String) (now : Nat) : ContextItem :=
  { id := "screenpipe-context"
    reference := "Screenpipe Context"
    createdAt := now
    payload := .screenpipe data }

/-- `addScreenpipeContext` helper: build the item and `addScreenpipe` it. -/
def addScreenpipeContext (data : String) (now : Nat) (s : ContextItemsState) :
    ContextItemsState :=
  addScreenpipe (mkScreenpipeContextItem data now) s

/-- The item built by the `addSearchContext` helper: id is
`search-` + the current timestamp, reference label embeds the query
(`Search: "<query>"`). -/
def mkSearchContextItem (query : String) (results : List SearchResultEntry)
    (now : Nat) : ContextItem :=
  { id := "search-" ++ Nat.repr now
    reference := "Search: \"" ++ query ++ "\""
    createdAt := now
    payload := .search query results }

/-- `addSearchContext` helper: build the item and `addSearchResults` it. -/
def addSearchContext (query : String) (results : List SearchResultEntry)
    (now : Nat) (s : ContextItemsState) : ContextItemsState :=
  addSearchResults (mkSearchContextItem query results now) s

/-- A call to one of the store's mutating operations, with its arguments. -/
inductive Action
  | addFile (file : ContextItem)
  | addFolder (folder : ContextItem)
  | addYouTubeVideo (video : ContextItem)
  | addTag (tag : ContextItem)
  | addScreenpipe (data : ContextItem)
  | addSearchResults (search : ContextItem)
  | removeItem (type : ContextItemType) (id : String)
  | setCurrentFile (file : Option ContextItem)
  | toggleCurrentFile
  | clearAll
deriving DecidableEq

/-- Apply one mutating operation to the store state. -/
def applyAction : Action → ContextItemsState → ContextItemsState
  | .addFile f, s => addFile f s
  | .addFolder f, s => addFolder f s
  | .addYouTubeVideo v, s => addYouTubeVideo v s
  | .addTag t, s => addTag t s
  | .addScreenpipe d, s => addScreenpipe d s
  | .addSearchResults q, s => addSearchResults q s
  | .removeItem t id, s => removeItem t id s
  | .setCurrentFile f, s => setCurrentFile f s
  | .toggleCurrentFile, s => toggleCurrentFile s
  | .clearAll, s => clearAll s

/-- Well-formedness of one collection: keys are pairwise distinct and every
entry is stored under its item's id.  Both hold by construction, because the
store always inserts with `[item.id]: item`. -/
abbrev RecordWF (r : Record) : Prop :=
  (Record.keys r).Nodup ∧ ∀ p ∈ r, p.1 = p.2.id

/-- Well-formedness of the whole store state: every collection is
well-formed. -/
abbrev StateWF (s : ContextItemsState) : Prop :=
  RecordWF s.files ∧ RecordWF s.folders ∧ RecordWF s.youtubeVideos ∧
    RecordWF s.tags ∧ RecordWF s.screenpipe ∧ RecordWF s.searchResults

end ContextStore

namespace ContextStore

theorem Record.set_nil (k : String) (v : ContextItem) :
    Record.set [] k v = [(k, v)] := rfl

theorem Record.set_cons (q : String × ContextItem) (qs : Record) (k v) :
    Record.set (q :: qs) k v =
      if q.1 = k then (k, v) :: qs else q :: Record.set qs k v := rfl

theorem Record.get?_nil (k : String) : Record.get? [] k = none := rfl

theorem Record.get?_cons (q : String × ContextItem) (qs : Record) (k) :
    Record.get? (q :: qs) k =
      if q.1 = k then some q.2 else Record.get? qs k := rfl

theorem Record.keys_nil : Record.keys ([] : Record) = [] := rfl

theorem Record.keys_cons (q : String × ContextItem) (qs : Record) :
    Record.keys (q :: qs) = q.1 :: Record.keys qs := rfl

theorem Record.values_nil : Record.values ([] : Record) = [] := rfl

theorem Record.values_cons (q : String × ContextItem) (qs : Record) :
    Record.values (q :: qs) = q.2 :: Record.values qs := rfl

theorem Record.delete_nil (k : String) : Record.delete [] k = [] := rfl

theorem Record.delete_cons (q : String × ContextItem) (qs : Record) (k) :
    Record.delete (q :: qs) k =
      if q.1 = k then Record.delete qs k else q :: Record.delete qs k := by
  by_cases hq : q.1 = k <;> simp [Record.delete, List.filter_cons, hq]

theorem Record.mem_keys_of_mem {r : Record} {p} (hp : p ∈ r) :
    p.1 ∈ Record.keys r :=
  List.mem_map_of_mem Prod.fst hp

theorem Record.mem_set {r : Record} {k : String} {v p} :
    p ∈ Record.set r k v → p = (k, v) ∨ p ∈ r := by
  induction r with
  | nil =>
    rw [Record.set_nil]
    intro hp
    exact Or.inl (List.mem_singleton.mp hp)
  | cons q qs ih =>
    rw [Record.set_cons]
    by_cases hq : q.1 = k
    · rw [if_pos hq]
      intro hp
      rcases List.mem_cons.mp hp with rfl | hp
      · exact Or.inl rfl
      · exact Or.inr (List.mem_cons_of_mem q hp)
    · rw [if_neg hq]
      intro hp
      rcases List.mem_cons.mp hp with rfl | hp
      · exact Or.inr (List.mem_cons_self _ _)
      · rcases ih hp with h1 | h1
        · exact Or.inl h1
        · exact Or.inr (List.mem_cons_of_mem q h1)

theorem Record.keys_set_of_mem {r : Record} {k : String} (v)
    (h : k ∈ Record.keys r) :
    Record.keys (Record.set r k v) = Record.keys r := by
  induction r with
  | nil => simp [Record.keys_nil] at h
  | cons q qs ih =>
    rw [Record.keys_cons, List.mem_cons] at h
    rw [Record.set_cons]
    by_cases hq : q.1 = k
    · rw [if_pos hq, Record.keys_cons, Record.keys_cons, hq]
    · have h2 : k ∈ Record.keys qs := by
        rcases h with h | h
        · exact absurd h.symm hq
        · exact h
      rw [if_neg hq, Record.keys_cons, Record.keys_cons, ih h2]

theorem Record.keys_set_of_not_mem {r : Record} {k : String} (v)
    (h : k ∉ Record.keys r) :
    Record.keys (Record.set r k v) = Record.keys r ++ [k] := by
  induction r with
  | nil => rfl
  | cons q qs ih =>
    rw [Record.keys_cons, List.mem_cons] at h
    push_neg at h
    have hq : q.1 ≠ k := fun hh => h.1 hh.symm
    rw [Record.set_cons, if_neg hq, Record.keys_cons, Record.keys_cons,
      ih h.2, List.cons_append]

theorem Record.nodup_keys_set {r : Record} {k : String} (v)
    (h : (Record.keys r).Nodup) : (Record.keys (Record.set r k v)).Nodup := by
  by_cases hm : k ∈ Record.keys r
  · rwa [Record.keys_set_of_mem v hm]
  · rw [Record.keys_set_of_not_mem v hm]
    simp [List.nodup_append, h, hm]

theorem Record.wf_set {r : Record} (v : ContextItem) (h : RecordWF r) :
    RecordWF (Record.set r v.id v) := by
  refine ⟨Record.nodup_keys_set v h.1, ?_⟩
  intro p hp
  rcases Record.mem_set hp with rfl | hp
  · rfl
  · exact h.2 p hp

theorem Record.get?_set_self (r : Record) (k : String) (v) :
    Record.get? (Record.set r k v) k = some v := by
  induction r with
  | nil => rw [Record.set_nil, Record.get?_cons, if_pos rfl]
  | cons q qs ih =>
    rw [Record.set_cons]
    by_cases hq : q.1 = k
    · rw [if_pos hq, Record.get?_cons, if_pos rfl]
    · rw [if_neg hq, Record.get?_cons, if_neg hq, ih]

theorem Record.get?_set_ne (r : Record) {k k' : String} (v) (h : k' ≠ k) :
    Record.get? (Record.set r k v) k' = Record.get? r k' := by
  have hkk : k ≠ k' := Ne.symm h
  induction r with
  | nil => rw [Record.set_nil, Record.get?_cons, if_neg hkk, Record.get?_nil]
  | cons q qs ih =>
    rw [Record.set_cons]
    by_cases hq : q.1 = k
    · have hq' : q.1 ≠ k' := by rw [hq]; exact hkk
      rw [if_pos hq, Record.get?_cons, if_neg hkk, Record.get?_cons, if_neg hq']
    · rw [if_neg hq, Record.get?_cons, Record.get?_cons, ih]

theorem Record.values_countP_of_wf {r : Record} (h : RecordWF r) (k : String) :
    (Record.values r).countP (fun x => x.id == k) =
      if k ∈ Record.keys r then 1 else 0 := by
  induction r with
  | nil => simp [Record.values_nil, Record.keys_nil]
  | cons q qs ih =>
    obtain ⟨hnd, hids⟩ := h
    rw [Record.keys_cons, List.nodup_cons] at hnd
    have hq : q.1 = q.2.id := hids q (List.mem_cons_self q qs)
    have hwf : RecordWF qs :=
      ⟨hnd.2, fun p hp => hids p (List.mem_cons_of_mem q hp)⟩
    have ihq := ih hwf
    rw [Record.values_cons, List.countP_cons, Record.keys_cons]
    by_cases hk : q.1 = k
    · subst hk
      have hknot : q.1 ∉ Record.keys qs := hnd.1
      have hcond : (q.2.id == q.1) = true := beq_iff_eq.mpr hq.symm
      simp [ihq, hknot, hcond]
    · have hcond : (q.2.id == k) = false := by
        rw [beq_eq_false_iff_ne, ← hq]
        exact hk
      have hmem : (k ∈ q.1 :: Record.keys qs) ↔ k ∈ Record.keys qs := by
        rw [List.mem_cons]
        constructor
        · rintro (h1 | h1)
          · exact absurd h1.symm hk
          · exact h1
        · exact Or.inr
      simp [ihq, hcond, hmem]

theorem Record.delete_of_not_mem {r : Record} {k : String}
    (h : k ∉ Record.keys r) : Record.delete r k = r := by
  rw [Record.delete, List.filter_eq_self]
  intro p hp
  have hne : p.1 ≠ k := fun hh => h (hh ▸ Record.mem_keys_of_mem hp)
  simp [hne]

theorem Record.wf_delete {r : Record} (k : String) (h : RecordWF r) :
    RecordWF (Record.delete r k) := by
  constructor
  · exact ((List.filter_sublist r).map Prod.fst).nodup h.1
  · intro p hp
    exact h.2 p (List.mem_of_mem_filter hp)

theorem Record.get?_delete_self (r : Record) (k : String) :
    Record.get? (Record.delete r k) k = none := by
  induction r with
  | nil => rfl
  | cons q qs ih =>
    rw [Record.delete_cons]
    by_cases hq : q.1 = k
    · rw [if_pos hq]
      exact ih
    · rw [if_neg hq, Record.get?_cons, if_neg hq]
      exact ih

theorem Record.get?_delete_ne (r : Record) {k k' : String} (h : k' ≠ k) :
    Record.get? (Record.delete r k) k' = Record.get? r k' := by
  induction r with
  | nil => rfl
  | cons q qs ih =>
    rw [Record.delete_cons]
    by_cases hq : q.1 = k
    · have hq' : q.1 ≠ k' := by rw [hq]; exact Ne.symm h
      rw [if_pos hq, Record.get?_cons, if_neg hq', ih]
    · rw [if_neg hq, Record.get?_cons, Record.get?_cons, ih]

end ContextStore

namespace ContextStore

theorem insertDesc_nil (x : ContextItem) : insertDesc x [] = [x] := rfl

theorem insertDesc_cons (x y : ContextItem) (ys : List ContextItem) :
    insertDesc x (y :: ys) =
      if y.createdAt ≤ x.createdAt then x :: y :: ys else y :: insertDesc x ys :=
  rfl

theorem sortByCreatedAtDesc_nil : sortByCreatedAtDesc [] = [] := rfl

theorem sortByCreatedAtDesc_cons (x : ContextItem) (xs : List ContextItem) :
    sortByCreatedAtDesc (x :: xs) = insertDesc x (sortByCreatedAtDesc xs) := rfl

theorem insertDesc_perm (x : ContextItem) (l : List ContextItem) :
    (insertDesc x l).Perm (x :: l) := by
  induction l with
  | nil => exact List.Perm.refl _
  | cons y ys ih =>
    rw [insertDesc_cons]
    by_cases h : y.createdAt ≤ x.createdAt
    · rw [if_pos h]
    · rw [if_neg h]
      exact (ih.cons y).trans (List.Perm.swap x y ys)

theorem sortByCreatedAtDesc_perm (l : List ContextItem) :
    (sortByCreatedAtDesc l).Perm l := by
  induction l with
  | nil => exact List.Perm.refl _
  | cons x xs ih =>
    rw [sortByCreatedAtDesc_cons]
    exact (insertDesc_perm x _).trans (ih.cons x)

theorem insertDesc_pairwise {x : ContextItem} {l : List ContextItem}
    (h : l.Pairwise (fun a b => b.createdAt ≤ a.createdAt)) :
    (insertDesc x l).Pairwise (fun a b => b.createdAt ≤ a.createdAt) := by
  induction l with
  | nil => simp [insertDesc_nil]
  | cons y ys ih =>
    rw [insertDesc_cons]
    rw [List.pairwise_cons] at h
    by_cases hle : y.createdAt ≤ x.createdAt
    · rw [if_pos hle, List.pairwise_cons]
      refine ⟨?_, List.pairwise_cons.mpr h⟩
      intro z hz
      rcases List.mem_cons.mp hz with rfl | hz
      · exact hle
      · exact le_trans (h.1 z hz) hle
    · rw [if_neg hle, List.pairwise_cons]
      refine ⟨?_, ih h.2⟩
      intro z hz
      rcases List.mem_cons.mp ((insertDesc_perm x ys).mem_iff.mp hz) with rfl | hz2
      · exact le_of_not_le hle
      · exact h.1 z hz2

theorem sortByCreatedAtDesc_pairwise (l : List ContextItem) :
    (sortByCreatedAtDesc l).Pairwise (fun a b => b.createdAt ≤ a.createdAt) := by
  induction l with
  | nil => simp [sortByCreatedAtDesc_nil]
  | cons x xs ih =>
    rw [sortByCreatedAtDesc_cons]
    exact insertDesc_pairwise ih

theorem insertDesc_filter_createdAt (t : Nat) (x : ContextItem)
    (l : List ContextItem) :
    (insertDesc x l).filter (fun z => z.createdAt == t) =
      (x :: l).filter (fun z => z.createdAt == t) := by
  induction l with
  | nil => rfl
  | cons y ys ih =>
    rw [insertDesc_cons]
    by_cases hle : y.createdAt ≤ x.createdAt
    · rw [if_pos hle]
    · rw [if_neg hle]
      have hlt : x.createdAt < y.createdAt := Nat.lt_of_not_le hle
      by_cases px : x.createdAt = t
      · have hpx : (x.createdAt == t) = true := beq_iff_eq.mpr px
        have hpy : (y.createdAt == t) = false := by
          rw [beq_eq_false_iff_ne]
          omega
        simp [List.filter_cons, hpx, hpy, ih]
      · have hpx : (x.createdAt == t) = false := beq_eq_false_iff_ne.mpr px
        simp [List.filter_cons, hpx, ih]

theorem sortByCreatedAtDesc_filter_createdAt (t : Nat) (l : List ContextItem) :
    (sortByCreatedAtDesc l).filter (fun z => z.createdAt == t) =
      l.filter (fun z => z.createdAt == t) := by
  induction l with
  | nil => rfl
  | cons x xs ih =>
    rw [sortByCreatedAtDesc_cons, insertDesc_filter_createdAt, List.filter_cons,
      List.filter_cons, ih]

theorem getCollection_setCollection_same (s : ContextItemsState)
    (t : ContextItemType) (r : Record) :
    getCollection (setCollection s t r) t = r := by
  cases t <;> rfl

theorem getCollection_setCollection_ne (s : ContextItemsState)
    {t t' : ContextItemType} (r : Record) (h : t' ≠ t) :
    getCollection (setCollection s t r) t' = getCollection s t' := by
  cases t <;> cases t' <;> first | rfl | exact absurd rfl h

theorem setCollection_currentFile (s : ContextItemsState) (t : ContextItemType)
    (r : Record) : (setCollection s t r).currentFile = s.currentFile := by
  cases t <;> rfl

theorem setCollection_includeCurrentFile (s : ContextItemsState)
    (t : ContextItemType) (r : Record) :
    (setCollection s t r).includeCurrentFile = s.includeCurrentFile := by
  cases t <;> rfl

theorem setCollection_getCollection_self (s : ContextItemsState)
    (t : ContextItemType) : setCollection s t (getCollection s t) = s := by
  cases t <;> rfl

theorem recordWF_nil : RecordWF [] := ⟨List.nodup_nil, by simp⟩

theorem stateWF_initialState : StateWF initialState :=
  ⟨recordWF_nil, recordWF_nil, recordWF_nil, recordWF_nil, recordWF_nil,
    recordWF_nil⟩

theorem stateWF_applyAction (a : Action) (s : ContextItemsState)
    (h : StateWF s) : StateWF (applyAction a s) := by
  obtain ⟨h1, h2, h3, h4, h5, h6⟩ := h
  cases a with
  | addFile f => exact ⟨Record.wf_set f h1, h2, h3, h4, h5, h6⟩
  | addFolder f => exact ⟨h1, Record.wf_set f h2, h3, h4, h5, h6⟩
  | addYouTubeVideo v => exact ⟨h1, h2, Record.wf_set v h3, h4, h5, h6⟩
  | addTag t => exact ⟨h1, h2, h3, Record.wf_set t h4, h5, h6⟩
  | addScreenpipe d => exact ⟨h1, h2, h3, h4, Record.wf_set d h5, h6⟩
  | addSearchResults q => exact ⟨h1, h2, h3, h4, h5, Record.wf_set q h6⟩
  | removeItem t id =>
    cases t with
    | file => exact ⟨Record.wf_delete id h1, h2, h3, h4, h5, h6⟩
    | folder => exact ⟨h1, Record.wf_delete id h2, h3, h4, h5, h6⟩
    | youtube => exact ⟨h1, h2, Record.wf_delete id h3, h4, h5, h6⟩
    | tag => exact ⟨h1, h2, h3, Record.wf_delete id h4, h5, h6⟩
    | screenpipe => exact ⟨h1, h2, h3, h4, Record.wf_delete id h5, h6⟩
    | search => exact ⟨h1, h2, h3, h4, h5, Record.wf_delete id h6⟩
  | setCurrentFile f => exact ⟨h1, h2, h3, h4, h5, h6⟩
  | toggleCurrentFile => exact ⟨h1, h2, h3, h4, h5, h6⟩
  | clearAll =>
    exact ⟨recordWF_nil, recordWF_nil, recordWF_nil, recordWF_nil,
      recordWF_nil, recordWF_nil⟩

end ContextStore

namespace ContextStore

/-- The decimal digit characters of `n`, most significant first: a
structurally recursive reformulation of core's fuelled `Nat.toDigitsCore`,
used to reason about the `search-` + timestamp ids. -/
def decDigits (n : Nat) : List Char :=
  if _h : n < 10 then [Nat.digitChar n]
  else decDigits (n / 10) ++ [Nat.digitChar (n % 10)]
decreasing_by exact Nat.div_lt_self (by omega) (by omega)

theorem decDigits_of_lt {n : Nat} (h : n < 10) :
    decDigits n = [Nat.digitChar n] := by
  rw [decDigits, dif_pos h]

theorem decDigits_of_ge {n : Nat} (h : ¬ n < 10) :
    decDigits n = decDigits (n / 10) ++ [Nat.digitChar (n % 10)] := by
  rw [decDigits, dif_neg h]

theorem decDigits_length_pos (n : Nat) : 0 < (decDigits n).length := by
  by_cases h : n < 10
  · rw [decDigits_of_lt h]
    simp
  · rw [decDigits_of_ge h]
    simp

theorem digitChar_inj_fin :
    ∀ m n : Fin 10, Nat.digitChar m.val = Nat.digitChar n.val → m = n := by
  decide

theorem digitChar_injOn {m n : Nat} (hm : m < 10) (hn : n < 10)
    (h : Nat.digitChar m = Nat.digitChar n) : m = n :=
  congrArg Fin.val (digitChar_inj_fin ⟨m, hm⟩ ⟨n, hn⟩ h)

theorem toDigitsCore_eq_decDigits :
    ∀ (fuel n : Nat) (ds : List Char), n < fuel →
      Nat.toDigitsCore 10 fuel n ds = decDigits n ++ ds := by
  intro fuel
  induction fuel with
  | zero => intro n ds h; exact absurd h (Nat.not_lt_zero n)
  | succ f ih =>
    intro n ds h
    simp only [Nat.toDigitsCore]
    by_cases h0 : n / 10 = 0
    · rw [if_pos h0]
      have hn : n < 10 := by omega
      rw [decDigits_of_lt hn, Nat.mod_eq_of_lt hn]
      rfl
    · rw [if_neg h0, ih (n / 10) _ (by omega)]
      conv_rhs => rw [decDigits_of_ge (show ¬ n < 10 by omega)]
      rw [List.append_assoc]
      rfl

theorem toDigits_eq_decDigits (n : Nat) : Nat.toDigits 10 n = decDigits n := by
  rw [Nat.toDigits, toDigitsCore_eq_decDigits (n + 1) n [] (Nat.lt_succ_self n),
    List.append_nil]

theorem decDigits_injective : ∀ m n : Nat, decDigits m = decDigits n → m = n := by
  intro m
  induction m using Nat.strong_induction_on with
  | _ m ih =>
    intro n h
    by_cases hm : m < 10 <;> by_cases hn : n < 10
    · rw [decDigits_of_lt hm, decDigits_of_lt hn] at h
      exact digitChar_injOn hm hn (List.singleton_inj.mp h)
    · rw [decDigits_of_lt hm, decDigits_of_ge hn] at h
      have hlen := congrArg List.length h
      rw [List.length_append, List.length_singleton, List.length_singleton] at hlen
      have hpos := decDigits_length_pos (n / 10)
      omega
    · rw [decDigits_of_ge hm, decDigits_of_lt hn] at h
      have hlen := congrArg List.length h
      rw [List.length_append, List.length_singleton, List.length_singleton] at hlen
      have hpos := decDigits_length_pos (m / 10)
      omega
    · rw [decDigits_of_ge hm, decDigits_of_ge hn] at h
      obtain ⟨h1, h2⟩ := List.append_inj' h rfl
      have hdiv : m / 10 = n / 10 :=
        ih (m / 10) (Nat.div_lt_self (by omega) (by omega)) (n / 10) h1
      have hc : Nat.digitChar (m % 10) = Nat.digitChar (n % 10) :=
        List.singleton_inj.mp h2
      have hmod : m % 10 = n % 10 :=
        digitChar_injOn (Nat.mod_lt m (by omega)) (Nat.mod_lt n (by omega)) hc
      omega

/-- `Nat.repr` (the decimal string of a natural number, used in the
`search-${Date.now()}` id) is injective. -/
theorem natRepr_injective {m n : Nat} (h : Nat.repr m = Nat.repr n) : m = n := by
  have hd : Nat.toDigits 10 m = Nat.toDigits 10 n := by
    have := congrArg String.data h
    simpa [Nat.repr, List.asString] using this
  rw [toDigits_eq_decDigits, toDigits_eq_decDigits] at hd
  exact decDigits_injective m n hd

end ContextStore

namespace ContextStore

/-- Sample file item, created at time 100. -/
def exFileA : ContextItem := mkFileContextItem "a.md" "A" "alpha" 100

/-- Sample file item, created at time 150. -/
def exFileB : ContextItem := mkFileContextItem "b.md" "B" "beta" 150

/-- Sample tag item, created at time 200. -/
def exTagX : ContextItem := mkTagContextItem "x" 200

/-- Sample state for the sorted-view claim: two files and a tag, inclusion
flag toggled off. -/
def exStateSorted : ContextItemsState :=
  toggleCurrentFile (addTag exTagX (addFile exFileB (addFile exFileA initialState)))

/-- C1: in every store state with the inclusion flag off or the current-file
slot empty, `getUnifiedContext()` is a permutation of the items of the
category collections, sorted by `createdAt` descending, stable on equal
timestamps (the filter to any fixed timestamp preserves the pre-sort
order), and any item with a strictly larger `createdAt` appears before any
item with a smaller one. -/
theorem getUnifiedContext_sorted_stable (s : ContextItemsState)
    (h : s.includeCurrentFile = false ∨ s.currentFile = none) :
    (getUnifiedContext s).Perm (allCategoryItems s) ∧
    (getUnifiedContext s).Pairwise (fun a b => b.createdAt ≤ a.createdAt) ∧
    (∀ t : Nat, (getUnifiedContext s).filter (fun z => z.createdAt == t) =
      (allCategoryItems s).filter (fun z => z.createdAt == t)) ∧
    (∀ a b : ContextItem, a.createdAt < b.createdAt →
      ∀ i j : Fin (getUnifiedContext s).length,
        (getUnifiedContext s).get i = a → (getUnifiedContext s).get j = b →
          (j : Nat) < (i : Nat)) := by
  have heq : getUnifiedContext s = sortByCreatedAtDesc (allCategoryItems s) := by
    rcases h with h | h
    · cases hc : s.currentFile <;> simp [getUnifiedContext, h, hc]
    · cases hb : s.includeCurrentFile <;> simp [getUnifiedContext, h, hb]
  refine ⟨?_, ?_, ?_, ?_⟩
  · rw [heq]
    exact sortByCreatedAtDesc_perm _
  · rw [heq]
    exact sortByCreatedAtDesc_pairwise _
  · intro t
    rw [heq]
    exact sortByCreatedAtDesc_filter_createdAt t _
  · intro a b hab i j ha hb2
    have hpw : (getUnifiedContext s).Pairwise
        (fun a b => b.createdAt ≤ a.createdAt) := by
      rw [heq]
      exact sortByCreatedAtDesc_pairwise _
    rw [List.pairwise_iff_get] at hpw
    rcases Nat.lt_trichotomy (i : Nat) (j : Nat) with hij | hij | hij
    · have hR := hpw i j hij
      rw [ha, hb2] at hR
      omega
    · have hgg : (getUnifiedContext s).get i = (getUnifiedContext s).get j := by
        rw [Fin.ext hij]
      rw [ha, hb2] at hgg
      rw [hgg] at hab
      exact absurd hab (lt_irrefl _)
    · exact hij

/-- C1 witness: the sorted-view theorem instantiated at a concrete state
with two files and a tag and the inclusion flag off. -/
theorem getUnifiedContext_sorted_stable_witness :
    (getUnifiedContext exStateSorted).Perm (allCategoryItems exStateSorted) ∧
    (getUnifiedContext exStateSorted).Pairwise
      (fun a b => b.createdAt ≤ a.createdAt) ∧
    (∀ t : Nat, (getUnifiedContext exStateSorted).filter
      (fun z => z.createdAt == t) =
      (allCategoryItems exStateSorted).filter (fun z => z.createdAt == t)) ∧
    (∀ a b : ContextItem, a.createdAt < b.createdAt →
      ∀ i j : Fin (getUnifiedContext exStateSorted).length,
        (getUnifiedContext exStateSorted).get i = a →
        (getUnifiedContext exStateSorted).get j = b →
          (j : Nat) < (i : Nat)) :=
  getUnifiedContext_sorted_stable exStateSorted (Or.inl (by decide))

/-- Sample current-file item, created at time 30 (older than every
collection item of the sample states). -/
def exFileC : ContextItem := mkFileContextItem "c.md" "C" "gamma" 30

/-- Sample state with a current file set and the inclusion flag on. -/
def exStateCurrent : ContextItemsState :=
  setCurrentFile (some exFileC)
    (addTag exTagX (addFile exFileB (addFile exFileA initialState)))

/-- C2: whenever the inclusion flag is on and the current-file slot holds
`f`, `getUnifiedContext()` is `f` prepended to the sorted category items,
regardless of the timestamp of `f`; in particular its first element is
`f`. -/
theorem getUnifiedContext_prepends_currentFile (s : ContextItemsState)
    (f : ContextItem) (h1 : s.includeCurrentFile = true)
    (h2 : s.currentFile = some f) :
    getUnifiedContext s = f :: sortByCreatedAtDesc (allCategoryItems s) ∧
    (getUnifiedContext s).head? = some f := by
  have heq : getUnifiedContext s = f :: sortByCreatedAtDesc (allCategoryItems s) := by
    simp [getUnifiedContext, h1, h2]
  exact ⟨heq, by rw [heq]; rfl⟩

/-- C2 witness: the prepend theorem instantiated at a concrete state whose
current file is older than every collection item. -/
theorem getUnifiedContext_prepends_currentFile_witness :
    getUnifiedContext exStateCurrent =
      exFileC :: sortByCreatedAtDesc (allCategoryItems exStateCurrent) ∧
    (getUnifiedContext exStateCurrent).head? = some exFileC :=
  getUnifiedContext_prepends_currentFile exStateCurrent exFileC
    (by decide) (by decide)

/-- C3 counterexample: the claim says `clearAll()` resets the inclusion
flag to its default `true`, but the source writes `includeCurrentFile:
false`; at the initial state the claimed conjunction is false. -/
theorem clearAll_flag_cex :
    ¬ (getUnifiedContext (clearAll initialState) = [] ∧
      (clearAll initialState).currentFile = none ∧
      (clearAll initialState).includeCurrentFile = true) := by
  decide

/-- C3 (amended): after `clearAll()` the unified context is empty and the
current-file slot is empty, and the inclusion flag is set to `false` (not
its default `true`). -/
theorem clearAll_resets (s : ContextItemsState) :
    getUnifiedContext (clearAll s) = [] ∧
    (clearAll s).currentFile = none ∧
    (clearAll s).includeCurrentFile = false :=
  ⟨rfl, rfl, rfl⟩

end ContextStore

namespace ContextStore

theorem Record.mem_keys_set_self (r : Record) (k : String) (v : ContextItem) :
    k ∈ Record.keys (Record.set r k v) := by
  by_cases hm : k ∈ Record.keys r
  · rwa [Record.keys_set_of_mem v hm]
  · rw [Record.keys_set_of_not_mem v hm]
    simp

theorem Record.values_countP_zero {r : Record} (h : RecordWF r) {k : String}
    (hk : k ∉ Record.keys r) :
    (Record.values r).countP (fun x => x.id == k) = 0 := by
  rw [Record.values_countP_of_wf h, if_neg hk]

/-- `k` occurs as a key of a category collection other than `files`. -/
abbrev idInNonFileCollections (s : ContextItemsState) (k : String) : Prop :=
  k ∈ Record.keys s.folders ∨ k ∈ Record.keys s.youtubeVideos ∨
    k ∈ Record.keys s.tags ∨ k ∈ Record.keys s.screenpipe ∨
    k ∈ Record.keys s.searchResults

/-- The current-file slot contributes an item with id `k` to the unified
view (inclusion flag on and slot holding an item with that id). -/
abbrev currentFileContributes (s : ContextItemsState) (k : String) : Prop :=
  s.includeCurrentFile = true ∧ ∃ g, s.currentFile = some g ∧ ContextItem.id g = k

/-- Folder item sharing the id `p` with a file, created at time 120. -/
def cexFolderP : ContextItem := mkFolderContextItem "p" 120

/-- File item with id `p`, created at time 100. -/
def cexFileOldP : ContextItem := mkFileContextItem "p" "P" "old" 100

/-- Replacement file item with the same id `p`, created at time 130. -/
def cexFileNewP : ContextItem := mkFileContextItem "p" "P" "new" 130

/-- State holding a file and a folder that share the id `p`. -/
def cexStateP : ContextItemsState :=
  addFolder cexFolderP (addFile cexFileOldP initialState)

/-- C4 counterexample: `files` already holds an item with id `p` and so does
`folders`; after re-adding a file with id `p` the aggregate view contains
two items with that id, not exactly one as claimed. -/
theorem addFile_aggregate_duplicate_cex :
    cexFileNewP.id ∈ Record.keys cexStateP.files ∧
    (getUnifiedContext (addFile cexFileNewP cexStateP)).countP
      (fun x => x.id == cexFileNewP.id) = 2 := by
  decide

/-- C4 (amended): ids stay unique within each category collection under
every operation; `addFile` with an existing id overwrites that entry in
place (same key order, last write wins, no merge) and leaves every other
key alone; afterwards `files` holds exactly one item with that id, and the
aggregate view holds exactly one item with that id provided the id does not
also occur in another category collection and is not contributed by the
prepended current file. -/
theorem addFile_replaces_in_place (s : ContextItemsState) (f : ContextItem)
    (hwf : StateWF s) :
    (∀ a : Action, StateWF (applyAction a s)) ∧
    Record.get? (addFile f s).files f.id = some f ∧
    (∀ k, k ≠ f.id → Record.get? (addFile f s).files k = Record.get? s.files k) ∧
    (f.id ∈ Record.keys s.files →
      Record.keys (addFile f s).files = Record.keys s.files) ∧
    (Record.values (addFile f s).files).countP (fun x => x.id == f.id) = 1 ∧
    (¬ idInNonFileCollections s f.id → ¬ currentFileContributes s f.id →
      (getUnifiedContext (addFile f s)).countP (fun x => x.id == f.id) = 1) := by
  have hwff : RecordWF (Record.set s.files f.id f) := Record.wf_set f hwf.1
  have hcount1 : (Record.values (Record.set s.files f.id f)).countP
      (fun x => x.id == f.id) = 1 := by
    rw [Record.values_countP_of_wf hwff,
      if_pos (Record.mem_keys_set_self s.files f.id f)]
  refine ⟨fun a => stateWF_applyAction a s hwf,
    Record.get?_set_self s.files f.id f,
    fun k hk => Record.get?_set_ne s.files f hk,
    fun hm => Record.keys_set_of_mem f hm,
    hcount1, ?_⟩
  intro hother hcur
  rw [idInNonFileCollections, not_or, not_or, not_or, not_or] at hother
  obtain ⟨ho1, ho2, ho3, ho4, ho5⟩ := hother
  have hall : (allCategoryItems (addFile f s)).countP (fun x => x.id == f.id) = 1 := by
    have hsplit : allCategoryItems (addFile f s) =
        Record.values (Record.set s.files f.id f) ++ Record.values s.folders ++
          Record.values s.youtubeVideos ++ Record.values s.tags ++
          Record.values s.screenpipe ++ Record.values s.searchResults := rfl
    rw [hsplit, List.countP_append, List.countP_append, List.countP_append,
      List.countP_append, List.countP_append, hcount1,
      Record.values_countP_zero hwf.2.1 ho1,
      Record.values_countP_zero hwf.2.2.1 ho2,
      Record.values_countP_zero hwf.2.2.2.1 ho3,
      Record.values_countP_zero hwf.2.2.2.2.1 ho4,
      Record.values_countP_zero hwf.2.2.2.2.2 ho5]
  have hsorted : (sortByCreatedAtDesc (allCategoryItems (addFile f s))).countP
      (fun x => x.id == f.id) = 1 := by
    rw [(sortByCreatedAtDesc_perm (allCategoryItems (addFile f s))).countP_eq]
    exact hall
  cases hb : s.includeCurrentFile with
  | false =>
    have hgu : getUnifiedContext (addFile f s) =
        sortByCreatedAtDesc (allCategoryItems (addFile f s)) := by
      cases hc : s.currentFile <;>
        simp [getUnifiedContext, show (addFile f s).includeCurrentFile = false from hb,
          show (addFile f s).currentFile = s.currentFile from rfl, hc]
    rw [hgu]
    exact hsorted
  | true =>
    cases hc : s.currentFile with
    | none =>
      have hgu : getUnifiedContext (addFile f s) =
          sortByCreatedAtDesc (allCategoryItems (addFile f s)) := by
        simp [getUnifiedContext, show (addFile f s).includeCurrentFile = true from hb,
          show (addFile f s).currentFile = s.currentFile from rfl, hc]
      rw [hgu]
      exact hsorted
    | some g =>
      have hgne : ContextItem.id g ≠ f.id := fun hgid => hcur ⟨hb, g, hc, hgid⟩
      have hgu : getUnifiedContext (addFile f s) =
          g :: sortByCreatedAtDesc (allCategoryItems (addFile f s)) := by
        simp [getUnifiedContext, show (addFile f s).includeCurrentFile = true from hb,
          show (addFile f s).currentFile = s.currentFile from rfl, hc]
      rw [hgu, List.countP_cons, hsorted]
      simp [hgne]

/-- Replacement file item with the same id `a.md` as `exFileA`, created at
time 300. -/
def exFileA2 : ContextItem := mkFileContextItem "a.md" "A2" "alpha2" 300

/-- State already holding the file `a.md`. -/
def exStateWithA : ContextItemsState := addFile exFileA initialState

/-- C4 witness: the replacement theorem instantiated at a concrete state
already containing a file with the same id. -/
theorem addFile_replaces_in_place_witness :
    (∀ a : Action, StateWF (applyAction a exStateWithA)) ∧
    Record.get? (addFile exFileA2 exStateWithA).files exFileA2.id = some exFileA2 ∧
    (∀ k, k ≠ exFileA2.id → Record.get? (addFile exFileA2 exStateWithA).files k =
      Record.get? exStateWithA.files k) ∧
    (exFileA2.id ∈ Record.keys exStateWithA.files →
      Record.keys (addFile exFileA2 exStateWithA).files =
        Record.keys exStateWithA.files) ∧
    (Record.values (addFile exFileA2 exStateWithA).files).countP
      (fun x => x.id == exFileA2.id) = 1 ∧
    (¬ idInNonFileCollections exStateWithA exFileA2.id →
      ¬ currentFileContributes exStateWithA exFileA2.id →
      (getUnifiedContext (addFile exFileA2 exStateWithA)).countP
        (fun x => x.id == exFileA2.id) = 1) :=
  addFile_replaces_in_place exStateWithA exFileA2 (by decide)

theorem removeItem_noop {s : ContextItemsState} {t : ContextItemType}
    {id : String} (h : id ∉ Record.keys (getCollection s t)) :
    removeItem t id s = s := by
  rw [removeItem, Record.delete_of_not_mem h, setCollection_getCollection_self]

/-- C5: `removeItem(category, id)` with an absent id is a perfect no-op
(the whole state is unchanged, no error); with a present id it deletes
exactly that entry and leaves every other entry, every other collection,
the current-file slot and the inclusion flag unchanged. -/
theorem removeItem_spec (s : ContextItemsState) (t : ContextItemType)
    (id : String) :
    (id ∉ Record.keys (getCollection s t) → removeItem t id s = s) ∧
    getCollection (removeItem t id s) t = Record.delete (getCollection s t) id ∧
    Record.get? (getCollection (removeItem t id s) t) id = none ∧
    (∀ k, k ≠ id → Record.get? (getCollection (removeItem t id s) t) k =
      Record.get? (getCollection s t) k) ∧
    (∀ u, u ≠ t → getCollection (removeItem t id s) u = getCollection s u) ∧
    (removeItem t id s).currentFile = s.currentFile ∧
    (removeItem t id s).includeCurrentFile = s.includeCurrentFile := by
  have hsame : getCollection (removeItem t id s) t =
      Record.delete (getCollection s t) id := by
    rw [removeItem, getCollection_setCollection_same]
  refine ⟨fun h => removeItem_noop h, hsame, ?_, ?_, ?_, ?_, ?_⟩
  · rw [hsame]
    exact Record.get?_delete_self _ _
  · intro k hk
    rw [hsame]
    exact Record.get?_delete_ne _ hk
  · intro u hu
    rw [removeItem]
    exact getCollection_setCollection_ne s _ hu
  · rw [removeItem]
    exact setCollection_currentFile s t _
  · rw [removeItem]
    exact setCollection_includeCurrentFile s t _

/-- Sample state holding one tag `tag-y`. -/
def exStateTagY : ContextItemsState := addTag (mkTagContextItem "y" 10) initialState

/-- C5 witness: removing the absent id `tag-x` from the tag collection of a
concrete state changes nothing. -/
theorem removeItem_spec_witness :
    removeItem ContextItemType.tag "tag-x" exStateTagY = exStateTagY :=
  (removeItem_spec exStateTagY ContextItemType.tag "tag-x").1 (by decide)

/-- C6: `toggleCurrentFile()` is an involution on the store state, and one
call changes only the inclusion flag (every collection and the current-file
slot are untouched). -/
theorem toggleCurrentFile_involutive (s : ContextItemsState) :
    toggleCurrentFile (toggleCurrentFile s) = s ∧
    (toggleCurrentFile s).includeCurrentFile = !s.includeCurrentFile ∧
    (toggleCurrentFile s).files = s.files ∧
    (toggleCurrentFile s).folders = s.folders ∧
    (toggleCurrentFile s).youtubeVideos = s.youtubeVideos ∧
    (toggleCurrentFile s).tags = s.tags ∧
    (toggleCurrentFile s).screenpipe = s.screenpipe ∧
    (toggleCurrentFile s).searchResults = s.searchResults ∧
    (toggleCurrentFile s).currentFile = s.currentFile := by
  refine ⟨?_, rfl, rfl, rfl, rfl, rfl, rfl, rfl, rfl⟩
  obtain ⟨c1, c2, c3, c4, c5, c6, cf, flag⟩ := s
  cases flag <;> rfl

end ContextStore

namespace ContextStore

/-- C7 counterexample: the search helper's reference label embeds the query
(`Search: "<query>"`), so it is not a fixed per-variant string — two
queries yield two different labels. -/
theorem searchReference_not_fixed_cex :
    (mkSearchContextItem "a" [] 0).reference ≠
      (mkSearchContextItem "b" [] 0).reference := by
  decide

/-- C7 (amended): the helpers derive ids deterministically — file id =
path, tag id = `tag-` + name, youtube id = `youtube-` + video id, folder id
= path, search id = `search-` + current timestamp (so searches at distinct
timestamps create distinct entries rather than overwriting) — and stamp
`createdAt` with the current time; the file, folder, tag, youtube and
screenpipe helpers use a fixed per-variant reference label, while the
search helper's label embeds the query. -/
theorem factoryHelpers_assign_ids (path title content tagName videoId vtitle
    transcript query : String) (results : List SearchResultEntry)
    (now now1 now2 : Nat) :
    (now1 ≠ now2 →
      (mkSearchContextItem query results now1).id ≠
        (mkSearchContextItem query results now2).id) ∧
    (mkFileContextItem path title content now).id = path ∧
    (mkFileContextItem path title content now).reference = "File" ∧
    (mkFileContextItem path title content now).createdAt = now ∧
    (mkTagContextItem tagName now).id = "tag-" ++ tagName ∧
    (mkTagContextItem tagName now).reference = "Tag" ∧
    (mkTagContextItem tagName now).createdAt = now ∧
    (mkYouTubeContextItem videoId vtitle transcript now).id =
      "youtube-" ++ videoId ∧
    (mkYouTubeContextItem videoId vtitle transcript now).reference =
      "YouTube Video" ∧
    (mkYouTubeContextItem videoId vtitle transcript now).createdAt = now ∧
    (mkFolderContextItem path now).id = path ∧
    (mkFolderContextItem path now).reference = "Folder" ∧
    (mkFolderContextItem path now).createdAt = now ∧
    (mkScreenpipeContextItem content now).reference = "Screenpipe Context" ∧
    (mkScreenpipeContextItem content now).createdAt = now ∧
    (mkSearchContextItem query results now).id = "search-" ++ Nat.repr now ∧
    (mkSearchContextItem query results now).reference =
      "Search: \"" ++ query ++ "\"" ∧
    (mkSearchContextItem query results now).createdAt = now := by
  refine ⟨?_, rfl, rfl, rfl, rfl, rfl, rfl, rfl, rfl, rfl, rfl, rfl, rfl,
    rfl, rfl, rfl, rfl, rfl⟩
  intro hne heq
  have hdata := congrArg String.data heq
  simp only [mkSearchContextItem] at hdata
  rw [String.data_append, String.data_append] at hdata
  have hrepr : (Nat.repr now1).data = (Nat.repr now2).data :=
    List.append_cancel_left hdata
  have : Nat.repr now1 = Nat.repr now2 := by
    cases hr1 : Nat.repr now1 with
    | mk d1 =>
      cases hr2 : Nat.repr now2 with
      | mk d2 =>
        rw [hr1, hr2] at hrepr
        simp at hrepr
        rw [hrepr]
  exact hne (natRepr_injective this)

/-- C7 witness: the helper theorem instantiated at concrete inputs, with
distinct timestamps 1 and 2 giving distinct search ids. -/
theorem factoryHelpers_assign_ids_witness :
    (mkSearchContextItem "q" [] 1).id ≠ (mkSearchContextItem "q" [] 2).id :=
  (factoryHelpers_assign_ids "p" "t" "c" "x" "v" "vt" "tr" "q" [] 5 1 2).1
    (by decide)

/-- C8: every mutating store operation is a total function on states — for
any action, with arbitrary (possibly empty or malformed) string arguments,
applying it yields a state and preserves collection well-formedness — and a
`removeItem` naming an absent category/id combination is a no-op on the
whole state.  (The getters `getUnifiedContext`/`getItemsByType` are plain
total functions of the state by definition.) -/
theorem applyAction_total_wf (a : Action) (s : ContextItemsState)
    (h : StateWF s) :
    StateWF (applyAction a s) ∧
    (∀ t id, id ∉ Record.keys (getCollection s t) →
      applyAction (Action.removeItem t id) s = s) ∧
    StateWF initialState :=
  ⟨stateWF_applyAction a s h, fun _t _id hid => removeItem_noop hid,
    stateWF_initialState⟩

/-- C8 witness: the totality theorem instantiated at the empty-string file
add on the initial state. -/
theorem applyAction_total_wf_witness :
    StateWF (applyAction (Action.addFile (mkFileContextItem "" "" "" 0))
      initialState) ∧
    (∀ t id, id ∉ Record.keys (getCollection initialState t) →
      applyAction (Action.removeItem t id) initialState = initialState) ∧
    StateWF initialState :=
  applyAction_total_wf (Action.addFile (mkFileContextItem "" "" "" 0))
    initialState (by decide)

/-- State whose current file `a.md` is also present in the files
collection. -/
def exStateDup : ContextItemsState :=
  setCurrentFile (some exFileA) (addFile exFileA initialState)

/-- C9: when the inclusion flag is on, the current-file slot holds `f`, and
the files collection also holds an item with id `f.id`, the unified view
starts with `f` and contains a second item with that id further on —
prepending does not deduplicate, so the id occurs at least twice. -/
theorem getUnifiedContext_currentFile_duplicate (s : ContextItemsState)
    (f : ContextItem) (h1 : s.includeCurrentFile = true)
    (h2 : s.currentFile = some f)
    (h3 : ∃ x ∈ Record.values s.files, ContextItem.id x = f.id) :
    (getUnifiedContext s).head? = some f ∧
    (∃ x ∈ (getUnifiedContext s).tail, ContextItem.id x = f.id) ∧
    2 ≤ (getUnifiedContext s).countP (fun x => x.id == f.id) := by
  have heq : getUnifiedContext s =
      f :: sortByCreatedAtDesc (allCategoryItems s) := by
    simp [getUnifiedContext, h1, h2]
  obtain ⟨x, hx, hxid⟩ := h3
  have hxall : x ∈ allCategoryItems s := by
    rw [allCategoryItems]
    exact List.mem_append_left _ (List.mem_append_left _
      (List.mem_append_left _ (List.mem_append_left _
        (List.mem_append_left _ hx))))
  have hxsorted : x ∈ sortByCreatedAtDesc (allCategoryItems s) :=
    (sortByCreatedAtDesc_perm _).mem_iff.mpr hxall
  refine ⟨by rw [heq]; rfl, ⟨x, by rw [heq]; exact hxsorted, hxid⟩, ?_⟩
  rw [heq, List.countP_cons]
  have hfc : ((fun x => ContextItem.id x == f.id) f) = true := by simp
  have hpos : 0 < (sortByCreatedAtDesc (allCategoryItems s)).countP
      (fun x => x.id == f.id) := by
    rw [List.countP_pos_iff]
    exact ⟨x, hxsorted, by simp [hxid]⟩
  simp only [hfc, if_true]
  omega

/-- C9 witness: the duplication theorem instantiated at a concrete state
whose current file `a.md` is also in the files collection. -/
theorem getUnifiedContext_currentFile_duplicate_witness :
    (getUnifiedContext exStateDup).head? = some exFileA ∧
    (∃ x ∈ (getUnifiedContext exStateDup).tail,
      ContextItem.id x = exFileA.id) ∧
    2 ≤ (getUnifiedContext exStateDup).countP
      (fun x => x.id == exFileA.id) :=
  getUnifiedContext_currentFile_duplicate exStateDup exFileA (by decide)
    (by decide) (by decide)

end ContextStore

namespace ContextStore

/-- A sequence of `addScreenpipeContext` calls (payload and timestamp per
call), applied left to right. -/
def addScreenpipeContextMany (calls : List (String × Nat))
    (s : ContextItemsState) : ContextItemsState :=
  calls.foldl (fun st c => addScreenpipeContext c.1 c.2 st) s

theorem screenpipe_step {s : ContextItemsState} (d : String) (n : Nat)
    (h1 : ∀ p ∈ s.screenpipe, p.1 = "screenpipe-context")
    (h2 : s.screenpipe.length ≤ 1) :
    (addScreenpipeContext d n s).screenpipe =
      [("screenpipe-context", mkScreenpipeContextItem d n)] := by
  show Record.set s.screenpipe (mkScreenpipeContextItem d n).id
    (mkScreenpipeContextItem d n) = _
  cases hsp : s.screenpipe with
  | nil => rfl
  | cons q qs =>
    have hq : q.1 = "screenpipe-context" :=
      h1 q (by rw [hsp]; exact List.mem_cons_self q qs)
    have hqs : qs = [] := by
      rw [hsp, List.length_cons] at h2
      exact List.length_eq_zero.mp (by omega)
    subst hqs
    rw [Record.set_cons,
      show (mkScreenpipeContextItem d n).id = "screenpipe-context" from rfl,
      if_pos hq]

theorem screenpipe_many_aux :
    ∀ (calls : List (String × Nat)) (s : ContextItemsState),
      (∀ p ∈ s.screenpipe, p.1 = "screenpipe-context") →
      s.screenpipe.length ≤ 1 →
      (∀ p ∈ (addScreenpipeContextMany calls s).screenpipe,
        p.1 = "screenpipe-context") ∧
      (addScreenpipeContextMany calls s).screenpipe.length ≤ 1 ∧
      (∀ c, calls.getLast? = some c →
        (addScreenpipeContextMany calls s).screenpipe =
          [("screenpipe-context", mkScreenpipeContextItem c.1 c.2)]) := by
  intro calls
  induction calls with
  | nil =>
    intro s hh1 hh2
    refine ⟨hh1, hh2, ?_⟩
    intro c hc
    simp [List.getLast?] at hc
  | cons c0 rest ih =>
    intro s hh1 hh2
    have hstep := screenpipe_step c0.1 c0.2 hh1 hh2
    have hh1' : ∀ p ∈ (addScreenpipeContext c0.1 c0.2 s).screenpipe,
        p.1 = "screenpipe-context" := by
      rw [hstep]
      intro p hp
      obtain rfl := List.mem_singleton.mp hp
      rfl
    have hh2' : (addScreenpipeContext c0.1 c0.2 s).screenpipe.length ≤ 1 := by
      rw [hstep]
      simp
    obtain ⟨g1, g2, g3⟩ := ih (addScreenpipeContext c0.1 c0.2 s) hh1' hh2'
    refine ⟨g1, g2, ?_⟩
    intro c hc
    cases rest with
    | nil =>
      have hc0 : c0 = c := by
        simpa [List.getLast?] using hc
      show (addScreenpipeContextMany [] (addScreenpipeContext c0.1 c0.2 s)).screenpipe = _
      rw [← hc0]
      exact hstep
    | cons c1 rest2 =>
      exact g3 c (by rw [← List.getLast?_cons_cons]; exact hc)

/-- C10: the screenpipe helper always uses the fixed id
`screenpipe-context`, so starting from any state whose screenpipe
collection already satisfies that shape (in particular the initial, empty
one), any sequence of capture calls leaves at most one entry, and after a
non-empty sequence the single entry is the last call's item — each call
overwrites the previous capture. -/
theorem screenpipe_at_most_one (calls : List (String × Nat))
    (s : ContextItemsState)
    (h1 : ∀ p ∈ s.screenpipe, p.1 = "screenpipe-context")
    (h2 : s.screenpipe.length ≤ 1) :
    (∀ d n, (mkScreenpipeContextItem d n).id = "screenpipe-context") ∧
    (∀ p ∈ (addScreenpipeContextMany calls s).screenpipe,
      p.1 = "screenpipe-context") ∧
    (addScreenpipeContextMany calls s).screenpipe.length ≤ 1 ∧
    (∀ c, calls.getLast? = some c →
      (addScreenpipeContextMany calls s).screenpipe =
        [("screenpipe-context", mkScreenpipeContextItem c.1 c.2)]) := by
  obtain ⟨g1, g2, g3⟩ := screenpipe_many_aux calls s h1 h2
  exact ⟨fun _ _ => rfl, g1, g2, g3⟩

/-- C10 witness: two captures on the initial state leave exactly the second
capture as the single screenpipe entry. -/
theorem screenpipe_at_most_one_witness :
    (∀ d n, (mkScreenpipeContextItem d n).id = "screenpipe-context") ∧
    (∀ p ∈ (addScreenpipeContextMany [("d1", 1), ("d2", 2)]
      initialState).screenpipe, p.1 = "screenpipe-context") ∧
    (addScreenpipeContextMany [("d1", 1), ("d2", 2)]
      initialState).screenpipe.length ≤ 1 ∧
    (∀ c, ([("d1", 1), ("d2", 2)] : List (String × Nat)).getLast? = some c →
      (addScreenpipeContextMany [("d1", 1), ("d2", 2)]
        initialState).screenpipe =
        [("screenpipe-context", mkScreenpipeContextItem c.1 c.2)]) :=
  screenpipe_at_most_one [("d1", 1), ("d2", 2)] initialState (by decide)
    (by decide)

end ContextStore
